import Mathlib

/-!
Verification of the `pico` incremental-computation core of this repository.

The development shallowly embeds the code of `crates/pico_core/src/node.rs`
(identity types, `DerivedNode`, `DerivedNode::update`, `SourceNode`,
`Dependency`, `NodeKind`) and `crates/pico/src/macro_fns.rs` (param interning
and the type-discriminating `hash` function).  Parts of the engine that the
repository uses but whose sources are not present here (the `Database` with
its epoch clock, `write_source`, the verify/execute algorithm
`execute_memoized_function`, the param-storage lookup `get_param`, and the
`DynEq` type-erased equality) are modelled from the specification; each such
definition carries a doc comment saying so.

Machine integers are modelled as `Nat` with explicit reduction modulo `2 ^ 64`
where 64-bit wrap-around matters (the hasher).  Type-erased values
(`Box<dyn DynEq>` / `Box<dyn Any>`) are modelled as a pair of a runtime type
identifier and the byte stream the value feeds to a `Hash`er; equality of such
values is decidable structural equality, matching `DynEq` (a downcast to the
same concrete type followed by `==`, so values of different concrete types
always compare unequal).
-/

/-- Modelled from the spec: a type-erased value (`Box<dyn DynEq>` /
`Box<dyn Any>`, from the missing `dyn_eq.rs`).  `typeId` is the runtime type
identifier (`TypeId`, hashed as a 64-bit quantity), `content` is the byte
stream the value writes into a `Hash`er.  Equality is derived structural
equality: two values are equal exactly when they have the same concrete type
and equal content, which is the behavior of `DynEq` comparison. -/
structure DynValue where
  typeId : Nat
  content : List (Fin 256)
deriving DecidableEq, Repr

/-- Modelled from the spec: `Clone::clone` for a value, which produces a value
equal to the original. -/
def DynValue.clone (v : DynValue) : DynValue := v

/-! ## The hasher

`macro_fns.rs` hashes params with `std::hash::DefaultHasher`, which is
SipHash-1-3 with both keys zero.  We embed SipHash-1-3 over byte streams:
64-bit lanes are `Nat`s reduced modulo `2 ^ 64` after every arithmetic step.
-/

def mask64 (x : Nat) : Nat := x % 2 ^ 64

def rotl64 (x n : Nat) : Nat := ((x <<< n) + (x >>> (64 - n))) % 2 ^ 64

structure SipState where
  v0 : Nat
  v1 : Nat
  v2 : Nat
  v3 : Nat

def sipRound (s : SipState) : SipState :=
  let a0 := mask64 (s.v0 + s.v1)
  let a1 := (rotl64 s.v1 13) ^^^ a0
  let a0' := rotl64 a0 32
  let a2 := mask64 (s.v2 + s.v3)
  let a3 := (rotl64 s.v3 16) ^^^ a2
  let b0 := mask64 (a0' + a3)
  let b3 := (rotl64 a3 21) ^^^ b0
  let b2 := mask64 (a2 + a1)
  let b1 := (rotl64 a1 17) ^^^ b2
  ⟨b0, b1, rotl64 b2 32, b3⟩

/-- Little-endian interpretation of a byte list as a natural number. -/
def le8 (bs : List Nat) : Nat := bs.foldr (fun b acc => b + 256 * acc) 0

/-- One SipHash compression step: xor the message word into `v3`, run one
round (SipHash-1-3 uses one compression round), xor the word into `v0`. -/
def sipCompress (s : SipState) (m : Nat) : SipState :=
  let s1 := { s with v3 := s.v3 ^^^ m }
  let s2 := sipRound s1
  { s2 with v0 := s2.v0 ^^^ m }

/-- Consume the byte stream in 8-byte little-endian words; the final word
packs the trailing 0–7 bytes together with the total length modulo 256 in the
top byte. -/
def sipProcess (len : Nat) : SipState → List Nat → SipState
  | s, b0 :: b1 :: b2 :: b3 :: b4 :: b5 :: b6 :: b7 :: rest =>
      sipProcess len (sipCompress s (le8 [b0, b1, b2, b3, b4, b5, b6, b7])) rest
  | s, rest => sipCompress s (mask64 (le8 rest + len % 256 * 2 ^ 56))

/-- SipHash-1-3 with both keys zero, as used by `DefaultHasher::new()`. -/
def sipHash13 (bs : List Nat) : Nat :=
  let s0 : SipState :=
    ⟨0x736f6d6570736575, 0x646f72616e646f6d, 0x6c7967656e657261, 0x7465646279746573⟩
  let s1 := sipProcess bs.length s0 bs
  let s2 := sipRound (sipRound (sipRound { s1 with v2 := s1.v2 ^^^ 0xff }))
  mask64 (s2.v0 ^^^ s2.v1 ^^^ s2.v2 ^^^ s2.v3)

/-- The 8-byte little-endian encoding of a 64-bit quantity, as written by
`Hasher::write_u64`. -/
def encodeU64LE (x : Nat) : List Nat :=
  [x % 256, x / 2 ^ 8 % 256, x / 2 ^ 16 % 256, x / 2 ^ 24 % 256,
   x / 2 ^ 32 % 256, x / 2 ^ 40 % 256, x / 2 ^ 48 % 256, x / 2 ^ 56 % 256]

/-- The byte stream a param feeds to the hasher in `macro_fns.rs::hash`:
first the `TypeId` of the concrete type (a 64-bit write — the comment in the
source says this is done to prevent collisions for newtypes), then the
value's own `Hash` byte stream. -/
def hashBytes (v : DynValue) : List Nat :=
  encodeU64LE v.typeId ++ v.content.map (fun b => (b : Nat))

/-- `macro_fns.rs::hash`: run `DefaultHasher` (SipHash-1-3, zero keys) over
the `TypeId` followed by the value's content and return the 64-bit result. -/
def hash (v : DynValue) : Nat := sipHash13 (hashBytes v)

/-! ## Param storage and interning (`macro_fns.rs`)

`ParamId` is the 64-bit hash.  The storage holds an append-only arena
(`boxcar::Vec`, whose `push` returns the index of the pushed element, i.e. the
previous length) and a `DashMap` from `ParamId` to arena index, both modelled
with lists.
-/

abbrev ParamId := Nat

/-- First entry with the given key in an association list. -/
def assocFind {α β : Type} [DecidableEq α] (k : α) : List (α × β) → Option β
  | [] => none
  | (k1, v) :: rest => if k = k1 then some v else assocFind k rest

/-- Overwrite (or append) the entry with the given key in an association
list. -/
def assocSet {α β : Type} [DecidableEq α] (k : α) (v : β) : List (α × β) → List (α × β)
  | [] => [(k, v)]
  | (k1, v1) :: rest => if k = k1 then (k, v) :: rest else (k1, v1) :: assocSet k v rest

/-- The param side of the database storage: the append-only param arena and
the `param_id_to_index` map. -/
structure ParamStorage where
  params : List DynValue
  param_id_to_index : List (ParamId × Nat)
deriving DecidableEq, Repr

/-- `macro_fns.rs::intern_borrowed_param`: hash the param to get its
`ParamId`; if the id is vacant in `param_id_to_index`, push a clone of the
param onto the arena and record the returned index; return the id. -/
def intern_borrowed_param (s : ParamStorage) (param : DynValue) : ParamId × ParamStorage :=
  let param_id := hash param
  match assocFind param_id s.param_id_to_index with
  | some _ => (param_id, s)
  | none =>
      (param_id,
       ⟨s.params ++ [param.clone],
        assocSet param_id s.params.length s.param_id_to_index⟩)

/-- `macro_fns.rs::intern_owned_param`: hash the param to get its `ParamId`;
if the id is vacant in `param_id_to_index`, push the param itself onto the
arena and record the returned index; return the id. -/
def intern_owned_param (s : ParamStorage) (param : DynValue) : ParamId × ParamStorage :=
  let param_id := hash param
  match assocFind param_id s.param_id_to_index with
  | some _ => (param_id, s)
  | none =>
      (param_id,
       ⟨s.params ++ [param],
        assocSet param_id s.params.length s.param_id_to_index⟩)

/-- Modelled from the spec: `storage.get_param` (the body behind
`macro_fns.rs::get_param`, not present in the sources) — look the `ParamId` up
in `param_id_to_index` and return the arena entry at the mapped index, `none`
when the id was never interned. -/
def get_param (s : ParamStorage) (param_id : ParamId) : Option DynValue :=
  match assocFind param_id s.param_id_to_index with
  | none => none
  | some idx => s.params.get? idx

/-- Well-formedness of the param storage: every index recorded in
`param_id_to_index` points inside the arena. -/
def ParamStorage.WF (s : ParamStorage) : Prop :=
  ∀ pid idx, assocFind pid s.param_id_to_index = some idx → idx < s.params.length

/-! ## Identity types and nodes (`pico_core/src/node.rs`) -/

abbrev Key := Nat

abbrev Epoch := Nat

/-- `node.rs::DerivedNodeId`: the identity of one memoized computation call,
a `Key` for the function together with the `ParamId` of its interned
arguments. -/
structure DerivedNodeId where
  key : Key
  param_id : ParamId
deriving DecidableEq, Repr

/-- `node.rs::NodeKind`: a source identity or a derived identity. -/
inductive NodeKind where
  | Source (k : Key)
  | Derived (id : DerivedNodeId)
deriving DecidableEq, Repr

/-- `node.rs::Dependency`: the identity of a node this node read during its
last execution, with the epoch snapshot taken when it was consulted. -/
structure Dependency where
  node_to : NodeKind
  time_verified_or_updated : Epoch
deriving DecidableEq, Repr

/-- `node.rs::SourceNode`. -/
structure SourceNode where
  time_updated : Epoch
  value : DynValue
deriving DecidableEq, Repr

/-- `node.rs::DerivedNode`.  The Rust struct also stores `inner_fn`, a plain
function pointer; here the recomputation functions live in a separate table
passed to the engine (the function for a given `DerivedNodeId` never
changes), so the node itself carries only the data fields. -/
structure DerivedNode where
  time_verified : Epoch
  time_updated : Epoch
  dependencies : List Dependency
  value : DynValue
deriving DecidableEq, Repr

/-- `node.rs::DerivedNode::update`: overwrite `dependencies` and
`time_verified` unconditionally from the freshly computed node; overwrite
`value` and `time_updated` only when the new value is unequal to the old one,
returning whether the value was overwritten.  (Rust mutates in place; here
the updated node is returned alongside the boolean.) -/
def DerivedNode.update (self other : DerivedNode) : DerivedNode × Bool :=
  let s1 := { self with
    dependencies := other.dependencies, time_verified := other.time_verified }
  if s1.value ≠ other.value then
    ({ s1 with value := other.value, time_updated := other.time_updated }, true)
  else
    (s1, false)

/-- `DidRecalculate`: the signal `resolve` reports to its caller. -/
inductive DidRecalculate where
  | Recalculated
  | NotRecalculated
deriving DecidableEq, Repr

/-- Modelled from the spec: the `Database` state the engine threads —
the epoch clock, the source table and the derived table (the param storage
is independent of the engine and kept separate above). -/
structure Database where
  epoch : Epoch
  sources : List (Key × SourceNode)
  derived : List (DerivedNodeId × DerivedNode)
deriving DecidableEq, Repr

/-- Modelled from the spec: `write_source(Key, value)` — advance the epoch
clock first, then replace (or create) the `SourceNode` at the key, stamped
with the new current epoch (a source write always counts as a change). -/
def writeSource (db : Database) (k : Key) (v : DynValue) : Database :=
  let e := db.epoch + 1
  { db with epoch := e, sources := assocSet k ⟨e, v⟩ db.sources }

/-- Modelled from the spec: the body of a recomputation function (`inner_fn`)
as the reads it performs — it may read sources, request other derived values,
finish with a value, or abort (a panic). -/
inductive Comp where
  | pure (v : DynValue)
  | readSource (k : Key) (cont : DynValue → Comp)
  | resolve (id : DerivedNodeId) (cont : DynValue → Comp)
  | fail

/-- The table assigning each `DerivedNodeId` its recomputation function — in
Rust a function pointer stored in the node and also passed to `resolve`. -/
abbrev FnTable := DerivedNodeId → Comp

/-- Result of a `resolve` request: the database after the request, the value
and `DidRecalculate` signal on success (`none` models a propagated panic or
fuel exhaustion), and, for bookkeeping, the list of node ids whose `inner_fn`
was executed to completion during the request, in completion order. -/
structure RRes where
  db : Database
  out : Option (DynValue × DidRecalculate)
  ran : List DerivedNodeId
deriving DecidableEq, Repr

/-- Result of a dependency walk: `some true` means a stale dependency was
found (short-circuit), `some false` means all dependencies verified clean. -/
structure CRes where
  db : Database
  out : Option Bool
  ran : List DerivedNodeId
deriving DecidableEq, Repr

/-- Result of executing an `inner_fn`: the value it produced together with
the dependencies recorded while it ran, in read order. -/
structure ERes where
  db : Database
  out : Option (DynValue × List Dependency)
  ran : List DerivedNodeId
deriving DecidableEq, Repr

mutual

/-- Modelled from the spec: the verify/execute engine,
`resolve(DerivedNodeId, inner_fn) -> (value, DidRecalculate)` (§4.4 of the
specification; the Rust `Database::execute_memoized_function` is not among
the sources).  Fuel bounds the recursion depth; every recursive call consumes
one unit, and exhaustion yields the error outcome. -/
def resolveNode (fns : FnTable) : Nat → Database → DerivedNodeId → RRes
  | 0, db, _ => ⟨db, none, []⟩
  | fuel + 1, db, id =>
    match assocFind id db.derived with
    | none =>
      match execComp fns fuel db (fns id) with
      | ⟨db2, none, ranE⟩ => ⟨db2, none, ranE⟩
      | ⟨db2, some (v, deps), ranE⟩ =>
          let node : DerivedNode := ⟨db2.epoch, db2.epoch, deps, v⟩
          ⟨{ db2 with derived := assocSet id node db2.derived },
           some (v, .Recalculated), ranE ++ [id]⟩
    | some node =>
      if node.time_verified = db.epoch then
        ⟨db, some (node.value, .NotRecalculated), []⟩
      else
        match checkDeps fns fuel db node.dependencies with
        | ⟨db2, none, ranD⟩ => ⟨db2, none, ranD⟩
        | ⟨db2, some false, ranD⟩ =>
            let node1 := { node with time_verified := db2.epoch }
            ⟨{ db2 with derived := assocSet id node1 db2.derived },
             some (node.value, .NotRecalculated), ranD⟩
        | ⟨db2, some true, ranD⟩ =>
          match execComp fns fuel db2 (fns id) with
          | ⟨db3, none, ranE⟩ => ⟨db3, none, ranD ++ ranE⟩
          | ⟨db3, some (v, deps), ranE⟩ =>
            let fresh : DerivedNode := ⟨db3.epoch, db3.epoch, deps, v⟩
            match assocFind id db3.derived with
            | none =>
                ⟨{ db3 with derived := assocSet id fresh db3.derived },
                 some (v, .Recalculated), ranD ++ ranE ++ [id]⟩
            | some cur =>
                let r := cur.update fresh
                ⟨{ db3 with derived := assocSet id r.1 db3.derived },
                 some (r.1.value, if r.2 then .Recalculated else .NotRecalculated),
                 ranD ++ ranE ++ [id]⟩

/-- Modelled from the spec: walk the recorded dependencies in order and stop
at the first stale one.  A source dependency is stale when the source's
`time_updated` differs from the recorded snapshot; a derived dependency is
recursively resolved and is stale when its post-resolve `time_updated`
differs from the recorded snapshot. -/
def checkDeps (fns : FnTable) : Nat → Database → List Dependency → CRes
  | 0, db, _ => ⟨db, none, []⟩
  | _ + 1, db, [] => ⟨db, some false, []⟩
  | fuel + 1, db, d :: rest =>
    match d.node_to with
    | .Source k =>
      match assocFind k db.sources with
      | none => ⟨db, none, []⟩
      | some sn =>
          if sn.time_updated ≠ d.time_verified_or_updated then ⟨db, some true, []⟩
          else checkDeps fns fuel db rest
    | .Derived did =>
      match resolveNode fns fuel db did with
      | ⟨db2, none, ranR⟩ => ⟨db2, none, ranR⟩
      | ⟨db2, some _, ranR⟩ =>
        match assocFind did db2.derived with
        | none => ⟨db2, none, ranR⟩
        | some dn =>
          if dn.time_updated ≠ d.time_verified_or_updated then ⟨db2, some true, ranR⟩
          else
            match checkDeps fns fuel db2 rest with
            | ⟨db3, o, ranC⟩ => ⟨db3, o, ranR ++ ranC⟩

/-- Modelled from the spec: execute an `inner_fn` under a fresh
dependency-recording frame.  Every source read appends a
`Dependency{Source k, time_updated-at-read}`; every nested resolve appends a
`Dependency{Derived id, post-resolve time_updated}`. -/
def execComp (fns : FnTable) : Nat → Database → Comp → ERes
  | 0, db, _ => ⟨db, none, []⟩
  | _ + 1, db, .pure v => ⟨db, some (v, []), []⟩
  | _ + 1, db, .fail => ⟨db, none, []⟩
  | fuel + 1, db, .readSource k cont =>
    match assocFind k db.sources with
    | none => ⟨db, none, []⟩
    | some sn =>
      match execComp fns fuel db (cont sn.value) with
      | ⟨db2, none, ranE⟩ => ⟨db2, none, ranE⟩
      | ⟨db2, some (v, deps), ranE⟩ =>
          ⟨db2, some (v, ⟨.Source k, sn.time_updated⟩ :: deps), ranE⟩
  | fuel + 1, db, .resolve rid cont =>
    match resolveNode fns fuel db rid with
    | ⟨db2, none, ranR⟩ => ⟨db2, none, ranR⟩
    | ⟨db2, some (v, _), ranR⟩ =>
      match assocFind rid db2.derived with
      | none => ⟨db2, none, ranR⟩
      | some dn =>
        match execComp fns fuel db2 (cont v) with
        | ⟨db3, none, ranE⟩ => ⟨db3, none, ranR ++ ranE⟩
        | ⟨db3, some (v2, deps), ranE⟩ =>
            ⟨db3, some (v2, ⟨.Derived rid, dn.time_updated⟩ :: deps), ranR ++ ranE⟩

end

/-! ## Association-list lemmas -/

theorem assocFind_assocSet_self {α β : Type} [DecidableEq α] (k : α) (v : β)
    (m : List (α × β)) : assocFind k (assocSet k v m) = some v := by
  induction m with
  | nil => simp [assocFind, assocSet]
  | cons hd t ih =>
    obtain ⟨k1, v1⟩ := hd
    by_cases hk : k = k1 <;> simp [assocFind, assocSet, hk, ih]

theorem assocFind_assocSet_ne {α β : Type} [DecidableEq α] {k j : α} (h : j ≠ k)
    (v : β) (m : List (α × β)) : assocFind j (assocSet k v m) = assocFind j m := by
  induction m with
  | nil => simp [assocFind, assocSet, h]
  | cons hd t ih =>
    obtain ⟨k1, v1⟩ := hd
    by_cases hk : k = k1
    · subst hk
      simp [assocFind, assocSet, h]
    · by_cases hj : j = k1 <;> simp [assocFind, assocSet, hk, hj, ih]

/-! ## Engine invariants -/

/-- The memoized value currently stored for a derived node id, if any. -/
def valueAt (db : Database) (j : DerivedNodeId) : Option DynValue :=
  (assocFind j db.derived).map DerivedNode.value


/-- The engine changes the memoized value of a derived node only when that
node's `inner_fn` is executed: any node id absent from the `ran` list keeps
its stored value (a re-verification may refresh `time_verified`, but never
the value). -/
theorem valueAt_preserved (fns : FnTable) : ∀ fuel : Nat,
    (∀ db id db' out ran, resolveNode fns fuel db id = ⟨db', out, ran⟩ →
      ∀ j, j ∉ ran → valueAt db' j = valueAt db j) ∧
    (∀ db deps db' out ran, checkDeps fns fuel db deps = ⟨db', out, ran⟩ →
      ∀ j, j ∉ ran → valueAt db' j = valueAt db j) ∧
    (∀ db c db' out ran, execComp fns fuel db c = ⟨db', out, ran⟩ →
      ∀ j, j ∉ ran → valueAt db' j = valueAt db j) := by
  intro fuel
  induction fuel with
  | zero =>
    refine ⟨?_, ?_, ?_⟩ <;> intro db x db' out ran hres j hj <;>
      simp only [resolveNode, checkDeps, execComp] at hres <;>
      cases hres <;> rfl
  | succ fuel ih =>
    obtain ⟨ihR, ihC, ihE⟩ := ih
    refine ⟨?_, ?_, ?_⟩
    · intro db id db' out ran hres j hj
      simp only [resolveNode] at hres
      split at hres
      next hfind =>
        split at hres
        next db2 ranE heq =>
          injection hres with e1 e2 e3
          subst e1; subst e2; subst e3
          exact ihE db (fns id) db2 _ ranE heq j hj
        next db2 v deps ranE heq =>
          injection hres with e1 e2 e3
          subst e1; subst e2; subst e3
          simp only [List.mem_append, List.mem_singleton] at hj
          push_neg at hj
          have h1 := ihE db (fns id) db2 _ ranE heq j hj.1
          simp only [valueAt, assocFind_assocSet_ne hj.2]
          exact h1
      next node hfind =>
        split at hres
        · injection hres with e1 e2 e3
          subst e1; subst e2; subst e3
          rfl
        · split at hres
          next db2 ranD heq =>
            injection hres with e1 e2 e3
            subst e1; subst e2; subst e3
            exact ihC db node.dependencies db2 _ ranD heq j hj
          next db2 ranD heq =>
            injection hres with e1 e2 e3
            subst e1; subst e2; subst e3
            have h1 := ihC db node.dependencies db2 _ ranD heq j hj
            by_cases hid : j = id
            · subst hid
              simp [valueAt, assocFind_assocSet_self, hfind]
            · simp only [valueAt, assocFind_assocSet_ne hid]
              exact h1
          next db2 ranD heq =>
            split at hres
            next db3 ranE heq2 =>
              injection hres with e1 e2 e3
              subst e1; subst e2; subst e3
              simp only [List.mem_append] at hj
              push_neg at hj
              have h1 := ihC db node.dependencies db2 _ ranD heq j hj.1
              have h2 := ihE db2 (fns id) db3 _ ranE heq2 j hj.2
              exact h2.trans h1
            next db3 v deps ranE heq2 =>
              split at hres
              next hcur =>
                injection hres with e1 e2 e3
                subst e1; subst e2; subst e3
                simp only [List.mem_append, List.mem_singleton] at hj
                push_neg at hj
                have h1 := ihC db node.dependencies db2 _ ranD heq j hj.1.1
                have h2 := ihE db2 (fns id) db3 _ ranE heq2 j hj.1.2
                have h3 : valueAt db3 j = valueAt db j := h2.trans h1
                simp only [valueAt, assocFind_assocSet_ne hj.2]
                exact h3
              next cur hcur =>
                injection hres with e1 e2 e3
                subst e1; subst e2; subst e3
                simp only [List.mem_append, List.mem_singleton] at hj
                push_neg at hj
                have h1 := ihC db node.dependencies db2 _ ranD heq j hj.1.1
                have h2 := ihE db2 (fns id) db3 _ ranE heq2 j hj.1.2
                have h3 : valueAt db3 j = valueAt db j := h2.trans h1
                simp only [valueAt, assocFind_assocSet_ne hj.2]
                exact h3
    · intro db deps db' out ran hres j hj
      cases deps with
      | nil =>
        simp only [checkDeps] at hres
        cases hres
        rfl
      | cons d rest =>
        simp only [checkDeps] at hres
        split at hres
        next k hkind =>
          split at hres
          next =>
            cases hres
            rfl
          next sn hsrc =>
            split at hres
            next =>
              cases hres
              rfl
            next =>
              exact ihC db rest db' out ran hres j hj
        next did hkind =>
          split at hres
          next db2 ranR heq =>
            injection hres with e1 e2 e3
            subst e1; subst e2; subst e3
            exact ihR db did db2 _ ranR heq j hj
          next db2 p ranR heq =>
            split at hres
            next =>
              injection hres with e1 e2 e3
              subst e1; subst e2; subst e3
              exact ihR db did db2 _ ranR heq j hj
            next dn hdn =>
              split at hres
              next =>
                injection hres with e1 e2 e3
                subst e1; subst e2; subst e3
                exact ihR db did db2 _ ranR heq j hj
              next =>
                injection hres with e1 e2 e3
                subst e1; subst e2; subst e3
                simp only [List.mem_append] at hj
                push_neg at hj
                have h1 := ihR db did db2 _ ranR heq j hj.1
                have h2 := ihC db2 rest _ _ _ rfl j hj.2
                exact h2.trans h1
    · intro db c db' out ran hres j hj
      cases c with
      | pure v =>
        simp only [execComp] at hres
        cases hres
        rfl
      | fail =>
        simp only [execComp] at hres
        cases hres
        rfl
      | readSource k cont =>
        simp only [execComp] at hres
        split at hres
        next =>
          cases hres
          rfl
        next sn hsrc =>
          split at hres
          next db2 ranE heq =>
            injection hres with e1 e2 e3
            subst e1; subst e2; subst e3
            exact ihE db (cont sn.value) db2 _ ranE heq j hj
          next db2 v deps ranE heq =>
            injection hres with e1 e2 e3
            subst e1; subst e2; subst e3
            exact ihE db (cont sn.value) db2 _ ranE heq j hj
      | resolve rid cont =>
        simp only [execComp] at hres
        split at hres
        next db2 ranR heq =>
          injection hres with e1 e2 e3
          subst e1; subst e2; subst e3
          exact ihR db rid db2 _ ranR heq j hj
        next db2 v dr ranR heq =>
          split at hres
          next =>
            injection hres with e1 e2 e3
            subst e1; subst e2; subst e3
            exact ihR db rid db2 _ ranR heq j hj
          next dn hdn =>
            split at hres
            next db3 ranE heq2 =>
              injection hres with e1 e2 e3
              subst e1; subst e2; subst e3
              simp only [List.mem_append] at hj
              push_neg at hj
              have h1 := ihR db rid db2 _ ranR heq j hj.1
              have h2 := ihE db2 (cont v) db3 _ ranE heq2 j hj.2
              exact h2.trans h1
            next db3 v2 deps ranE heq2 =>
              injection hres with e1 e2 e3
              subst e1; subst e2; subst e3
              simp only [List.mem_append] at hj
              push_neg at hj
              have h1 := ihR db rid db2 _ ranR heq j hj.1
              have h2 := ihE db2 (cont v) db3 _ ranE heq2 j hj.2
              exact h2.trans h1

theorem update_time_verified (s o : DerivedNode) :
    (s.update o).1.time_verified = o.time_verified := by
  simp only [DerivedNode.update]
  split <;> rfl

theorem update_dependencies (s o : DerivedNode) :
    (s.update o).1.dependencies = o.dependencies := by
  simp only [DerivedNode.update]
  split <;> rfl

/-- The fast path of the engine: a node already verified at the current
epoch is returned as is, with no recomputation and no state change. -/
theorem resolve_fast_path (fns : FnTable) (fuel : Nat) (db : Database)
    (id : DerivedNodeId) (n : DerivedNode)
    (hfind : assocFind id db.derived = some n) (htv : n.time_verified = db.epoch) :
    resolveNode fns (fuel + 1) db id = ⟨db, some (n.value, .NotRecalculated), []⟩ := by
  simp [resolveNode, hfind, htv]

/-- After any successful `resolve`, the resolved node is present in the
derived table, carries the returned value, and is verified at the current
epoch. -/
theorem resolve_post (fns : FnTable) (fuel : Nat) (db : Database) (id : DerivedNodeId)
    (db1 : Database) (v : DynValue) (r : DidRecalculate) (ran : List DerivedNodeId)
    (hres : resolveNode fns fuel db id = ⟨db1, some (v, r), ran⟩) :
    ∃ n : DerivedNode, assocFind id db1.derived = some n ∧
      n.time_verified = db1.epoch ∧ n.value = v := by
  cases fuel with
  | zero => simp [resolveNode] at hres
  | succ fuel =>
    simp only [resolveNode] at hres
    split at hres
    next hfind =>
      split at hres
      next db2 ranE heq =>
        injection hres with e1 e2 e3
        simp at e2
      next db2 v2 deps ranE heq =>
        injection hres with e1 e2 e3
        subst e1
        injection e2 with e4
        injection e4 with e5 e6
        subst e5
        exact ⟨_, assocFind_assocSet_self _ _ _, rfl, rfl⟩
    next node hfind =>
      split at hres
      next htv =>
        injection hres with e1 e2 e3
        subst e1
        injection e2 with e4
        injection e4 with e5 e6
        subst e5
        exact ⟨node, hfind, htv, rfl⟩
      next htv =>
        split at hres
        next db2 ranD heq =>
          injection hres with e1 e2 e3
          simp at e2
        next db2 ranD heq =>
          injection hres with e1 e2 e3
          subst e1
          injection e2 with e4
          injection e4 with e5 e6
          subst e5
          exact ⟨_, assocFind_assocSet_self _ _ _, rfl, rfl⟩
        next db2 ranD heq =>
          split at hres
          next db3 ranE heq2 =>
            injection hres with e1 e2 e3
            simp at e2
          next db3 v2 deps ranE heq2 =>
            split at hres
            next hcur =>
              injection hres with e1 e2 e3
              subst e1
              injection e2 with e4
              injection e4 with e5 e6
              subst e5
              exact ⟨_, assocFind_assocSet_self _ _ _, rfl, rfl⟩
            next cur hcur =>
              injection hres with e1 e2 e3
              subst e1
              injection e2 with e4
              injection e4 with e5 e6
              subst e5
              exact ⟨_, assocFind_assocSet_self _ _ _,
                update_time_verified cur _, rfl⟩

/-! ## Hash and interning lemmas -/

theorem hash_lt_two_pow (v : DynValue) : hash v < 2 ^ 64 := by
  have h : ∀ x, mask64 x < 2 ^ 64 := fun x => Nat.mod_lt _ (by norm_num)
  exact h _

theorem intern_owned_fst (s : ParamStorage) (v : DynValue) :
    (intern_owned_param s v).1 = hash v := by
  cases hfind : assocFind (hash v) s.param_id_to_index <;>
    simp [intern_owned_param, hfind]

theorem encodeU64LE_length (x : Nat) : (encodeU64LE x).length = 8 := rfl

theorem le8_encodeU64LE (x : Nat) : le8 (encodeU64LE x) = x % 2 ^ 64 := by
  simp only [le8, encodeU64LE, List.foldr]
  norm_num
  omega

theorem encodeU64LE_inj {x y : Nat} (hx : x < 2 ^ 64) (hy : y < 2 ^ 64)
    (h : encodeU64LE x = encodeU64LE y) : x = y := by
  have hx1 : le8 (encodeU64LE x) = x % 2 ^ 64 := le8_encodeU64LE x
  rw [h, le8_encodeU64LE y] at hx1
  omega

/-! ## Concrete scenarios

`fnsA` realizes the specification's own example shape: derived node `d1id`
reads source `keyA` but computes a constant (the `D = A * 0` pattern), and
`d2id` passes `d1id`'s value through. -/

def keyA : Key := 0

def cV : DynValue := ⟨1, []⟩

def srcV (n : Nat) : DynValue := ⟨2, List.replicate n 0⟩

def d1id : DerivedNodeId := ⟨10, 0⟩

def d2id : DerivedNodeId := ⟨11, 0⟩

def fnsA : FnTable := fun id =>
  if id = d1id then .readSource keyA (fun _ => .pure cV)
  else if id = d2id then .resolve d1id (fun v => .pure v)
  else .fail

def dbA0 : Database := ⟨0, [], []⟩

def dbA1 : Database := writeSource dbA0 keyA (srcV 1)

/-- First resolve of `d1id` under `fnsA` (computes and memoizes it). -/
def rA1 : RRes := resolveNode fnsA 12 dbA1 d1id

/-- Write an unequal value to `keyA` after `d1id` was memoized. -/
def dbA2 : Database := writeSource rA1.db keyA (srcV 2)

/-- First resolve of `d2id` under `fnsA` (computes and memoizes both nodes). -/
def rB1 : RRes := resolveNode fnsA 12 dbA1 d2id

/-- Write an unequal value to `keyA` after both nodes were memoized. -/
def dbB2 : Database := writeSource rB1.db keyA (srcV 2)

/-- `fnsB`: `d1id` passes the source value through, so its recomputed value
actually changes when the source does. -/
def fnsB : FnTable := fun id =>
  if id = d1id then .readSource keyA (fun x => .pure x) else .fail

def dbC1 : Database := writeSource dbA0 keyA (srcV 1)

def rC1 : RRes := resolveNode fnsB 12 dbC1 d1id

def dbC2 : Database := writeSource rC1.db keyA (srcV 2)

/-- `fnsC`: every recomputation function aborts. -/
def fnsC : FnTable := fun _ => .fail

/-- A database holding a stale memoized node for `d1id` whose (aborting)
function will be rerun on the next resolve. -/
def dbF : Database :=
  ⟨1, [(keyA, ⟨1, srcV 1⟩)], [(d1id, ⟨0, 0, [⟨.Source keyA, 0⟩], cV⟩)]⟩

/-! ## Claims about interning and the derived-table update rule -/

/-- C4: `DerivedNode::update` unconditionally overwrites the stored
dependencies (the prior list is discarded, never merged) and `time_verified`;
it overwrites the stored value and `time_updated` only if the new value is
unequal to the old value under the type-erased equality; and it returns
`true` exactly when the value was overwritten. -/
theorem c4_update_rule (s o : DerivedNode) :
    (s.update o).1.dependencies = o.dependencies ∧
    (s.update o).1.time_verified = o.time_verified ∧
    (s.value ≠ o.value →
      (s.update o).1.value = o.value ∧ (s.update o).1.time_updated = o.time_updated ∧
        (s.update o).2 = true) ∧
    (s.value = o.value →
      (s.update o).1.value = s.value ∧ (s.update o).1.time_updated = s.time_updated ∧
        (s.update o).2 = false) ∧
    ((s.update o).2 = true ↔ s.value ≠ o.value) := by
  by_cases h : s.value = o.value <;> simp [DerivedNode.update, h]

/-- Witness for C4 at concrete nodes whose values differ. -/
theorem c4_witness :
    ((⟨0, 0, [], ⟨0, []⟩⟩ : DerivedNode).update ⟨1, 1, [], ⟨0, [0]⟩⟩).2 = true ∧
    ((⟨0, 0, [], ⟨0, []⟩⟩ : DerivedNode).update ⟨1, 1, [], ⟨0, [0]⟩⟩).1.value = ⟨0, [0]⟩ := by
  have h := c4_update_rule ⟨0, 0, [], ⟨0, []⟩⟩ ⟨1, 1, [], ⟨0, [0]⟩⟩
  have hne : (⟨0, []⟩ : DynValue) ≠ ⟨0, [0]⟩ := by decide
  exact ⟨(h.2.2.1 hne).2.2, (h.2.2.1 hne).1⟩

def c7Prior : DerivedNode := ⟨5, 5, [], ⟨0, []⟩⟩

def c7Fresh : DerivedNode := ⟨0, 0, [], ⟨0, []⟩⟩

/-- C7 counterexample: both the prior node and the replacement node satisfy
`time_updated ≤ time_verified`, yet `update` breaks the invariant, because
the claim's hypotheses do not force the replacement's `time_verified` to be
at least the prior node's `time_updated` (values are equal here, so the old
`time_updated` is kept while `time_verified` is overwritten downward). -/
theorem c7_counterexample :
    c7Prior.time_updated ≤ c7Prior.time_verified ∧
    c7Fresh.time_updated ≤ c7Fresh.time_verified ∧
    ¬ ((c7Prior.update c7Fresh).1.time_updated ≤
        (c7Prior.update c7Fresh).1.time_verified) := by
  decide

/-- C7 amended: `update` preserves `time_updated ≤ time_verified` provided,
in addition to the invariant holding of both nodes, the replacement node's
`time_verified` is at least the prior node's `time_updated` — which holds of
every replacement the engine builds, since its `time_verified` is the
current epoch. -/
theorem c7_timestamp_invariant_amended (s o : DerivedNode)
    (h1 : s.time_updated ≤ s.time_verified)
    (h2 : o.time_updated ≤ o.time_verified)
    (h3 : s.time_updated ≤ o.time_verified) :
    (s.update o).1.time_updated ≤ (s.update o).1.time_verified := by
  simp only [DerivedNode.update]
  split
  · simpa using h2
  · simpa using h3

/-- Witness for the amended C7 at concrete nodes. -/
theorem c7_witness :
    ((⟨3, 2, [], cV⟩ : DerivedNode).update ⟨4, 4, [], cV⟩).1.time_updated ≤
      ((⟨3, 2, [], cV⟩ : DerivedNode).update ⟨4, 4, [], cV⟩).1.time_verified :=
  c7_timestamp_invariant_amended _ _ (by decide) (by decide) (by decide)

/-- C10: the two interning entry points agree completely — same returned
`ParamId`, identical arena and identical hash-to-index map (the borrowed
entry point clones the value, which yields an equal value). -/
theorem c10_intern_equivalence (s : ParamStorage) (v : DynValue) :
    intern_borrowed_param s v = intern_owned_param s v := by
  cases hfind : assocFind (hash v) s.param_id_to_index <;>
    simp [intern_borrowed_param, intern_owned_param, DynValue.clone, hfind]

/-- C5 counterexample: the claimed iff fails.  `ParamId` is a 64-bit hash,
so by pigeonhole there are two unequal values of the same concrete type that
intern to the same `ParamId`. -/
theorem c5_counterexample :
    ¬ (∀ v1 v2 : DynValue,
        (v1.typeId = v2.typeId ∧ v1 = v2) ↔
          (intern_owned_param ⟨[], []⟩ v1).1 = (intern_owned_param ⟨[], []⟩ v2).1) := by
  intro hcl
  obtain ⟨n, m, hnm, heq⟩ :=
    Finite.exists_ne_map_eq_of_infinite
      (fun n : Nat =>
        (⟨hash (⟨0, List.replicate n 0⟩ : DynValue), hash_lt_two_pow _⟩ : Fin (2 ^ 64)))
  have hhash : hash (⟨0, List.replicate n 0⟩ : DynValue) =
      hash (⟨0, List.replicate m 0⟩ : DynValue) :=
    congrArg Fin.val heq
  have hids : (intern_owned_param ⟨[], []⟩ ⟨0, List.replicate n 0⟩).1 =
      (intern_owned_param ⟨[], []⟩ ⟨0, List.replicate m 0⟩).1 := by
    rw [intern_owned_fst, intern_owned_fst, hhash]
  have hv : (⟨0, List.replicate n 0⟩ : DynValue) = ⟨0, List.replicate m 0⟩ :=
    ((hcl _ _).mpr hids).2
  have hn : n = m := by
    simpa using congrArg List.length (congrArg DynValue.content hv)
  exact hnm hn

/-- C5 amended: interning is deterministic — equal values of the same
concrete type always receive the same `ParamId` — and the hash input stream
begins with the 64-bit type identifier, so values of distinct concrete types
never present the same input to the hasher (the code's guarantee against
newtype collisions); full injectivity of `ParamId` assignment, however, only
holds up to 64-bit hash collisions. -/
theorem c5_interning_dedup_amended :
    (∀ (s1 s2 : ParamStorage) (v1 v2 : DynValue),
        v1.typeId = v2.typeId ∧ v1 = v2 →
          (intern_owned_param s1 v1).1 = (intern_owned_param s2 v2).1) ∧
    (∀ v1 v2 : DynValue, v1.typeId < 2 ^ 64 → v2.typeId < 2 ^ 64 →
        v1.typeId ≠ v2.typeId → hashBytes v1 ≠ hashBytes v2) := by
  constructor
  · rintro s1 s2 v1 v2 ⟨-, rfl⟩
    rw [intern_owned_fst, intern_owned_fst]
  · intro v1 v2 h1 h2 hne h
    apply hne
    apply encodeU64LE_inj h1 h2
    simp only [hashBytes] at h
    have hlen : (encodeU64LE v1.typeId).length = (encodeU64LE v2.typeId).length := by
      rw [encodeU64LE_length, encodeU64LE_length]
    exact (List.append_inj h hlen).1

/-- Witness for the amended C5. -/
theorem c5_witness :
    (intern_owned_param ⟨[], []⟩ ⟨3, []⟩).1 =
      (intern_owned_param ⟨[], [(0, 0)]⟩ ⟨3, []⟩).1 ∧
    hashBytes ⟨0, []⟩ ≠ hashBytes ⟨1, []⟩ :=
  ⟨c5_interning_dedup_amended.1 ⟨[], []⟩ ⟨[], [(0, 0)]⟩ ⟨3, []⟩ ⟨3, []⟩ ⟨rfl, rfl⟩,
   c5_interning_dedup_amended.2 ⟨0, []⟩ ⟨1, []⟩ (by norm_num) (by norm_num) (by decide)⟩

/-- C6: on first occurrence interning stores the value in the arena and
records the hash-to-index mapping; interning an identical value afterwards
returns the existing `ParamId` and changes nothing; and the arena only ever
grows (the prior arena is always a prefix of the new one). -/
theorem c6_interning_idempotent (s : ParamStorage) (v : DynValue) :
    (assocFind (hash v) s.param_id_to_index = none →
        (intern_owned_param s v).2.params = s.params ++ [v] ∧
        (intern_owned_param s v).2.param_id_to_index =
          assocSet (hash v) s.params.length s.param_id_to_index) ∧
    intern_owned_param (intern_owned_param s v).2 v =
      ((intern_owned_param s v).1, (intern_owned_param s v).2) ∧
    (∃ t, (intern_owned_param s v).2.params = s.params ++ t) := by
  cases hfind : assocFind (hash v) s.param_id_to_index with
  | none =>
    have hs2 : intern_owned_param s v =
        (hash v,
         ⟨s.params ++ [v], assocSet (hash v) s.params.length s.param_id_to_index⟩) := by
      simp [intern_owned_param, hfind]
    refine ⟨fun _ => (by rw [hs2]; exact ⟨rfl, rfl⟩), ?_, ⟨[v], (by rw [hs2])⟩⟩
    rw [hs2]
    simp [intern_owned_param, assocFind_assocSet_self]
  | some idx =>
    have hs2 : intern_owned_param s v = (hash v, s) := by
      simp [intern_owned_param, hfind]
    refine ⟨fun hnone => (by simp at hnone), ?_,
      ⟨[], (by rw [hs2]; simp)⟩⟩
    rw [hs2]
    simp [intern_owned_param, hfind]

/-- Witness for C6 starting from the empty storage. -/
theorem c6_witness :
    ((intern_owned_param ⟨[], []⟩ cV).2.params = [] ++ [cV] ∧
      (intern_owned_param ⟨[], []⟩ cV).2.param_id_to_index = assocSet (hash cV) 0 []) ∧
    intern_owned_param (intern_owned_param ⟨[], []⟩ cV).2 cV =
      ((intern_owned_param ⟨[], []⟩ cV).1, (intern_owned_param ⟨[], []⟩ cV).2) ∧
    (∃ t, (intern_owned_param ⟨[], []⟩ cV).2.params = [] ++ t) := by
  have h := c6_interning_idempotent ⟨[], []⟩ cV
  exact ⟨h.1 rfl, h.2.1, h.2.2⟩

/-- C9: after interning a value, `get_param` at the returned `ParamId`
recovers the value stored at the first insertion under that id (the value
itself when the id was vacant, and in any case some stored value); and
`get_param` at a `ParamId` that interning never produced returns `none`.
Interning also preserves well-formedness of the storage. -/
theorem c9_get_param (s : ParamStorage) (v : DynValue) (hwf : s.WF) :
    (assocFind (hash v) s.param_id_to_index = none →
        get_param (intern_owned_param s v).2 (intern_owned_param s v).1 = some v) ∧
    (get_param (intern_owned_param s v).2 (intern_owned_param s v).1).isSome = true ∧
    (∀ pid, assocFind pid s.param_id_to_index = none → get_param s pid = none) ∧
    (intern_owned_param s v).2.WF := by
  have hnever : ∀ pid, assocFind pid s.param_id_to_index = none → get_param s pid = none := by
    intro pid h
    simp [get_param, h]
  cases hfind : assocFind (hash v) s.param_id_to_index with
  | none =>
    have hs2 : intern_owned_param s v =
        (hash v,
         ⟨s.params ++ [v], assocSet (hash v) s.params.length s.param_id_to_index⟩) := by
      simp [intern_owned_param, hfind]
    have hget : get_param (intern_owned_param s v).2 (intern_owned_param s v).1 = some v := by
      rw [hs2]
      simp [get_param, assocFind_assocSet_self, List.getElem?_concat_length]
    refine ⟨fun _ => hget, by rw [hget]; rfl, hnever, ?_⟩
    rw [hs2]
    intro pid idx hfind2
    simp only at hfind2
    by_cases hpid : pid = hash v
    · subst hpid
      rw [assocFind_assocSet_self] at hfind2
      injection hfind2 with e
      subst e
      simp
    · rw [assocFind_assocSet_ne hpid] at hfind2
      have := hwf pid idx hfind2
      simp
      omega
  | some idx =>
    have hs2 : intern_owned_param s v = (hash v, s) := by
      simp [intern_owned_param, hfind]
    have hidx := hwf _ _ hfind
    have hget : get_param (intern_owned_param s v).2 (intern_owned_param s v).1 =
        some (s.params.get ⟨idx, hidx⟩) := by
      rw [hs2]
      simp [get_param, hfind, List.get?_eq_get hidx]
    refine ⟨fun hnone => (by simp at hnone), (by rw [hget]; rfl),
      hnever, ?_⟩
    rw [hs2]
    exact hwf

/-- Witness for C9 starting from the empty (well-formed) storage. -/
theorem c9_witness :
    get_param (intern_owned_param ⟨[], []⟩ cV).2 (intern_owned_param ⟨[], []⟩ cV).1 =
      some cV ∧
    get_param ⟨[], []⟩ 7 = none := by
  have hwf : (⟨[], []⟩ : ParamStorage).WF := by
    intro pid idx h
    simp [assocFind] at h
  have h := c9_get_param ⟨[], []⟩ cV hwf
  exact ⟨h.1 rfl, h.2.2.1 7 rfl⟩

/-! ## Claims about the verify/execute engine -/

theorem update_snd_true_iff (s o : DerivedNode) :
    (s.update o).2 = true ↔ s.value ≠ o.value := by
  by_cases h : s.value = o.value <;> simp [DerivedNode.update, h]

theorem update_value_of_ne (s o : DerivedNode) (h : s.value ≠ o.value) :
    (s.update o).1.value = o.value := by
  simp [DerivedNode.update, h]

/-- C2: if a derived node exists and is verified at the current epoch,
`resolve` returns its cached value, reports `NotRecalculated`, leaves the
database untouched and executes no `inner_fn`; consequently a second resolve
of the same id with no intervening source writes returns the identical
value, reports `NotRecalculated` and executes no `inner_fn`. -/
theorem c2_fast_path_idempotence :
    (∀ (fns : FnTable) (fuel : Nat) (db : Database) (id : DerivedNodeId) (n : DerivedNode),
        assocFind id db.derived = some n → n.time_verified = db.epoch →
        resolveNode fns (fuel + 1) db id = ⟨db, some (n.value, .NotRecalculated), []⟩) ∧
    (∀ (fns : FnTable) (fuel fuel2 : Nat) (db db1 : Database) (id : DerivedNodeId)
        (v : DynValue) (r : DidRecalculate) (ran : List DerivedNodeId),
        resolveNode fns fuel db id = ⟨db1, some (v, r), ran⟩ →
        resolveNode fns (fuel2 + 1) db1 id = ⟨db1, some (v, .NotRecalculated), []⟩) := by
  constructor
  · exact fun fns fuel db id n h1 h2 => resolve_fast_path fns fuel db id n h1 h2
  · intro fns fuel fuel2 db db1 id v r ran hres
    obtain ⟨n, hfind, htv, hval⟩ := resolve_post fns fuel db id db1 v r ran hres
    rw [← hval]
    exact resolve_fast_path fns fuel2 db1 id n hfind htv

/-- Witness for C2: the second resolve of `d1id` right after the first one
hits the fast path. -/
theorem c2_witness :
    resolveNode fnsA 13 rA1.db d1id = ⟨rA1.db, some (cV, .NotRecalculated), []⟩ :=
  c2_fast_path_idempotence.2 fnsA 12 12 dbA1 rA1.db d1id cV .Recalculated [d1id]
    (by decide)

/-- C8: if the inner function of a requested node fails, the engine
propagates the failure to the caller, applies no update — the previously
memoized value (or, for a first request, the absence of any entry) is left
untouched — and makes no second attempt. -/
theorem c8_failure_atomicity :
    (∀ (fns : FnTable) (fuel : Nat) (db : Database) (id : DerivedNodeId) (n : DerivedNode)
        (db2 db3 : Database) (ranD ranE : List DerivedNodeId),
        assocFind id db.derived = some n →
        n.time_verified ≠ db.epoch →
        checkDeps fns (fuel + 1) db n.dependencies = ⟨db2, some true, ranD⟩ →
        execComp fns (fuel + 1) db2 (fns id) = ⟨db3, none, ranE⟩ →
        id ∉ ranD → id ∉ ranE →
        resolveNode fns (fuel + 2) db id = ⟨db3, none, ranD ++ ranE⟩ ∧
          valueAt db3 id = some n.value) ∧
    (∀ (fns : FnTable) (fuel : Nat) (db : Database) (id : DerivedNodeId)
        (db2 : Database) (ranE : List DerivedNodeId),
        assocFind id db.derived = none →
        execComp fns (fuel + 1) db (fns id) = ⟨db2, none, ranE⟩ →
        id ∉ ranE →
        resolveNode fns (fuel + 2) db id = ⟨db2, none, ranE⟩ ∧
          assocFind id db2.derived = none) := by
  constructor
  · intro fns fuel db id n db2 db3 ranD ranE hfind htv hdeps hexec hD hE
    constructor
    · simp [resolveNode, hfind, htv, hdeps, hexec]
    · have h1 := (valueAt_preserved fns (fuel + 1)).2.1 db n.dependencies db2 _ ranD hdeps id hD
      have h2 := (valueAt_preserved fns (fuel + 1)).2.2 db2 (fns id) db3 _ ranE hexec id hE
      rw [h2, h1]
      simp [valueAt, hfind]
  · intro fns fuel db id db2 ranE hfind hexec hE
    constructor
    · simp [resolveNode, hfind, hexec]
    · have h2 := (valueAt_preserved fns (fuel + 1)).2.2 db (fns id) db2 _ ranE hexec id hE
      rw [valueAt, valueAt, hfind] at h2
      simp only [Option.map_none'] at h2
      exact Option.map_eq_none'.mp h2

/-- Witness for C8: a stale memoized node whose function aborts keeps its
memoized value, and a first request whose function aborts memoizes
nothing. -/
theorem c8_witness :
    (resolveNode fnsC 7 dbF d1id = ⟨dbF, none, [] ++ []⟩ ∧ valueAt dbF d1id = some cV) ∧
    (resolveNode fnsC 7 dbA0 d2id = ⟨dbA0, none, []⟩ ∧ assocFind d2id dbA0.derived = none) :=
  ⟨c8_failure_atomicity.1 fnsC 5 dbF d1id ⟨0, 0, [⟨.Source keyA, 0⟩], cV⟩ dbF dbF [] []
      (by decide) (by decide) (by decide) (by decide) (by decide) (by decide),
   c8_failure_atomicity.2 fnsC 5 dbA0 d2id dbA0 [] (by decide) (by decide) (by decide)⟩

/-- C1 counterexample: `d1id` depends directly on source `keyA` (its stored
dependency list records it); a new, unequal value is written to `keyA`; yet
the next resolve of `d1id` reports `NotRecalculated`, because its rerun
function (`ran = [d1id]`) recomputed a value equal to the stored one —
refuting the claim that such a resolve always reports `Recalculated`. -/
theorem c1_counterexample :
    (assocFind d1id rA1.db.derived).map DerivedNode.dependencies =
      some [⟨.Source keyA, 1⟩] ∧
    dbA2 = writeSource rA1.db keyA (srcV 2) ∧
    (assocFind keyA dbA2.sources).map SourceNode.value ≠
      (assocFind keyA rA1.db.sources).map SourceNode.value ∧
    (resolveNode fnsA 12 dbA2 d1id).out = some (cV, .NotRecalculated) ∧
    (resolveNode fnsA 12 dbA2 d1id).ran = [d1id] := by
  decide

/-- The engine never writes to the source table: only the external
`write_source` does. -/
theorem sources_preserved (fns : FnTable) : ∀ fuel : Nat,
    (∀ db id, (resolveNode fns fuel db id).db.sources = db.sources) ∧
    (∀ db deps, (checkDeps fns fuel db deps).db.sources = db.sources) ∧
    (∀ db c, (execComp fns fuel db c).db.sources = db.sources) := by
  intro fuel
  induction fuel with
  | zero =>
    refine ⟨?_, ?_, ?_⟩ <;> intro db x <;> rfl
  | succ fuel ih =>
    obtain ⟨ihR, ihC, ihE⟩ := ih
    refine ⟨?_, ?_, ?_⟩
    · intro db id
      simp only [resolveNode]
      split
      next hfind =>
        split
        next db2 ranE heq =>
          have h := ihE db (fns id)
          rw [heq] at h
          exact h
        next db2 v deps ranE heq =>
          have h := ihE db (fns id)
          rw [heq] at h
          exact h
      next node hfind =>
        split
        · rfl
        · split
          next db2 ranD heq =>
            have h := ihC db node.dependencies
            rw [heq] at h
            exact h
          next db2 ranD heq =>
            have h := ihC db node.dependencies
            rw [heq] at h
            exact h
          next db2 ranD heq =>
            have h1 := ihC db node.dependencies
            rw [heq] at h1
            split
            next db3 ranE heq2 =>
              have h2 := ihE db2 (fns id)
              rw [heq2] at h2
              exact h2.trans h1
            next db3 v deps ranE heq2 =>
              have h2 := ihE db2 (fns id)
              rw [heq2] at h2
              split
              next => exact h2.trans h1
              next => exact h2.trans h1
    · intro db deps
      cases deps with
      | nil => rfl
      | cons d rest =>
        simp only [checkDeps]
        split
        next k1 hkind =>
          split
          next => rfl
          next sn1 hsrc1 =>
            split
            next => rfl
            next => exact ihC db rest
        next did hkind =>
          split
          next db2 ranR heq =>
            have h := ihR db did
            rw [heq] at h
            exact h
          next db2 p ranR heq =>
            have h1 := ihR db did
            rw [heq] at h1
            split
            next => exact h1
            next dn hdn =>
              split
              next => exact h1
              next => exact (ihC db2 rest).trans h1
    · intro db c
      cases c with
      | pure v => rfl
      | fail => rfl
      | readSource k cont =>
        simp only [execComp]
        split
        next => rfl
        next sn hsrc =>
          split
          next db2 ranE heq =>
            have h := ihE db (cont sn.value)
            rw [heq] at h
            exact h
          next db2 v deps ranE heq =>
            have h := ihE db (cont sn.value)
            rw [heq] at h
            exact h
      | resolve rid cont =>
        simp only [execComp]
        split
        next db2 ranR heq =>
          have h := ihR db rid
          rw [heq] at h
          exact h
        next db2 v dr ranR heq =>
          have h1 := ihR db rid
          rw [heq] at h1
          split
          next => exact h1
          next dn hdn =>
            split
            next db3 ranE heq2 =>
              have h2 := ihE db2 (cont v)
              rw [heq2] at h2
              exact h2.trans h1
            next db3 v2 deps ranE heq2 =>
              have h2 := ihE db2 (cont v)
              rw [heq2] at h2
              exact h2.trans h1

/-- A dependency walk over a list that contains a source dependency whose
source has moved past the recorded snapshot can never report "all clean":
the engine itself never writes sources, so if the walk gets that far the
dependency is found stale (and otherwise the walk stopped earlier, at
another stale dependency or on an error). -/
theorem checkDeps_not_clean (fns : FnTable) (k : Key) (snap : Epoch) (sn : SourceNode) :
    ∀ (fuel : Nat) (db : Database) (deps : List Dependency) (db2 : Database)
      (ran2 : List DerivedNodeId),
      (⟨.Source k, snap⟩ : Dependency) ∈ deps →
      assocFind k db.sources = some sn →
      sn.time_updated ≠ snap →
      checkDeps fns fuel db deps ≠ ⟨db2, some false, ran2⟩ := by
  intro fuel
  induction fuel with
  | zero =>
    intro db deps db2 ran2 hmem hsrc hne hcd
    simp [checkDeps] at hcd
  | succ fuel ih =>
    intro db deps db2 ran2 hmem hsrc hne hcd
    cases deps with
    | nil => simp at hmem
    | cons d rest =>
      simp only [checkDeps] at hcd
      rcases List.mem_cons.mp hmem with rfl | hmem2
      · simp [hsrc, hne] at hcd
      · split at hcd
        next k1 hkind =>
          split at hcd
          next => simp at hcd
          next sn1 hsrc1 =>
            split at hcd
            next => simp at hcd
            next => exact ih db rest db2 ran2 hmem2 hsrc hne hcd
        next did hkind =>
          split at hcd
          next db21 ranR heq => simp at hcd
          next db21 p ranR heq =>
            split at hcd
            next => simp at hcd
            next dn hdn =>
              split at hcd
              next => simp at hcd
              next =>
                injection hcd with e1 e2 e3
                have hsrc21 : assocFind k db21.sources = some sn := by
                  have h := (sources_preserved fns fuel).1 db did
                  rw [heq] at h
                  rw [h]
                  exact hsrc
                have hrest : checkDeps fns fuel db21 rest =
                    ⟨(checkDeps fns fuel db21 rest).db, some false,
                     (checkDeps fns fuel db21 rest).ran⟩ := by
                  rw [← e2]
                exact ih db21 rest _ _ hmem2 hsrc21 hne hrest

/-- C1 amended: change propagation with early cutoff.  (i) A source write
advances the epoch and stamps the written `SourceNode` with it (a source
write always counts as a change), so the source's `time_updated` differs
from every dependency snapshot recorded at or before the pre-write epoch.
(ii) Any successful resolve of a derived node that is not already verified
at the current epoch and that records such a stale source anywhere among its
dependencies reruns the node's `inner_fn`.  (iii) For any dependency
structure, once the dependency walk finds a stale dependency (a moved
source, or a derived dependency whose post-resolve `time_updated` moved —
which is how a change propagates transitively exactly when intermediate
recomputed values changed), the non-reentrant resolve reruns `inner_fn`,
memoizes and returns the freshly computed value, and reports `Recalculated`
exactly when that value differs from the stored one (otherwise
`NotRecalculated`: early cutoff). -/
theorem c1_change_propagation_amended :
    (∀ (db : Database) (k : Key) (v : DynValue) (snap : Epoch),
        snap ≤ db.epoch →
        assocFind k (writeSource db k v).sources = some ⟨db.epoch + 1, v⟩ ∧
        (writeSource db k v).epoch = db.epoch + 1 ∧
        db.epoch + 1 ≠ snap) ∧
    (∀ (fns : FnTable) (fuel : Nat) (db db1 : Database) (id : DerivedNodeId)
        (n : DerivedNode) (k : Key) (snap : Epoch) (sn : SourceNode)
        (v : DynValue) (r : DidRecalculate) (ran : List DerivedNodeId),
        assocFind id db.derived = some n →
        n.time_verified ≠ db.epoch →
        (⟨.Source k, snap⟩ : Dependency) ∈ n.dependencies →
        assocFind k db.sources = some sn →
        sn.time_updated ≠ snap →
        resolveNode fns fuel db id = ⟨db1, some (v, r), ran⟩ →
        id ∈ ran) ∧
    (∀ (fns : FnTable) (fuel : Nat) (db db2 db3 : Database) (id : DerivedNodeId)
        (n : DerivedNode) (v : DynValue) (deps : List Dependency)
        (ranD ranE : List DerivedNodeId),
        assocFind id db.derived = some n →
        n.time_verified ≠ db.epoch →
        checkDeps fns (fuel + 1) db n.dependencies = ⟨db2, some true, ranD⟩ →
        execComp fns (fuel + 1) db2 (fns id) = ⟨db3, some (v, deps), ranE⟩ →
        id ∉ ranD → id ∉ ranE →
        (resolveNode fns (fuel + 2) db id).out =
            some (v, if v = n.value then .NotRecalculated else .Recalculated) ∧
          (resolveNode fns (fuel + 2) db id).ran = ranD ++ ranE ++ [id] ∧
          valueAt (resolveNode fns (fuel + 2) db id).db id = some v) := by
  refine ⟨?_, ?_, ?_⟩
  · intro db k v snap hsnap
    refine ⟨?_, rfl, ?_⟩
    · simp [writeSource, assocFind_assocSet_self]
    · exact Nat.ne_of_gt (Nat.lt_succ_of_le hsnap)
  · intro fns fuel db db1 id n k snap sn v r ran hfind htv hmem hsrc hne hres
    cases fuel with
    | zero => simp [resolveNode] at hres
    | succ fuel =>
      simp only [resolveNode, hfind] at hres
      split at hres
      next => exact absurd (by assumption) htv
      next =>
        split at hres
        next db21 ranD heq =>
          injection hres with e1 e2 e3
          simp at e2
        next db21 ranD heq =>
          exact absurd heq (checkDeps_not_clean fns k snap sn fuel db
            n.dependencies db21 ranD hmem hsrc hne)
        next db21 ranD heq =>
          split at hres
          next db31 ranE heq2 =>
            injection hres with e1 e2 e3
            simp at e2
          next db31 v2 deps2 ranE heq2 =>
            split at hres
            next hcur =>
              injection hres with e1 e2 e3
              subst e3
              simp
            next cur hcur =>
              injection hres with e1 e2 e3
              subst e3
              simp
  · intro fns fuel db db2 db3 id n v deps ranD ranE hfind htv hcd hexec hD hE
    have h1 := (valueAt_preserved fns (fuel + 1)).2.1 db n.dependencies db2 _ ranD hcd id hD
    have h2 := (valueAt_preserved fns (fuel + 1)).2.2 db2 (fns id) db3 _ ranE hexec id hE
    have hchain : valueAt db3 id = valueAt db id := h2.trans h1
    rw [valueAt, valueAt, hfind] at hchain
    obtain ⟨cur, hcur, hcurval⟩ :
        ∃ cur, assocFind id db3.derived = some cur ∧ cur.value = n.value := by
      cases hc : assocFind id db3.derived with
      | none => rw [hc] at hchain; simp at hchain
      | some cur =>
        rw [hc] at hchain
        simp only [Option.map_some', Option.some.injEq] at hchain
        exact ⟨cur, rfl, hchain⟩
    by_cases hch : v = n.value
    · have hupd : cur.update ⟨db3.epoch, db3.epoch, deps, v⟩ =
          ({ cur with dependencies := deps, time_verified := db3.epoch }, false) := by
        have hcv : cur.value = v := by rw [hcurval, hch]
        simp [DerivedNode.update, hcv]
      have hres : resolveNode fns (fuel + 2) db id =
          ⟨{ db3 with derived := assocSet id { cur with dependencies := deps, time_verified := db3.epoch } db3.derived },
           some (cur.value, .NotRecalculated), ranD ++ ranE ++ [id]⟩ := by
        simp [resolveNode, hfind, htv, hcd, hexec, hcur, hupd]
      rw [hres]
      refine ⟨?_, rfl, ?_⟩
      · simp [hcurval, hch]
      · simp [valueAt, assocFind_assocSet_self, hcurval, hch]
    · have hne : cur.value ≠ v := by
        rw [hcurval]
        exact fun hx => hch hx.symm
      have hupd : cur.update ⟨db3.epoch, db3.epoch, deps, v⟩ =
          (⟨db3.epoch, db3.epoch, deps, v⟩, true) := by
        simp [DerivedNode.update, hne]
      have hres : resolveNode fns (fuel + 2) db id =
          ⟨{ db3 with derived := assocSet id (⟨db3.epoch, db3.epoch, deps, v⟩ : DerivedNode) db3.derived },
           some (v, .Recalculated), ranD ++ ranE ++ [id]⟩ := by
        simp [resolveNode, hfind, htv, hcd, hexec, hcur, hupd]
      rw [hres]
      refine ⟨?_, rfl, ?_⟩
      · simp [hch]
      · simp [valueAt, assocFind_assocSet_self]

/-- Witness for the amended C1, all three parts at concrete inputs: the
write to `keyA` stamps it with the advanced epoch 2, stale against the
recorded snapshot 1; the resolve of `d1id` under `fnsA` (whose node lists
`keyA` among its dependencies) reruns `inner_fn`; and under `fnsB`, where
the recomputed value differs from the stored one, the stale-path resolve
reports `Recalculated` with the fresh value. -/
theorem c1_witness :
    (assocFind keyA (writeSource rA1.db keyA (srcV 2)).sources =
        some ⟨rA1.db.epoch + 1, srcV 2⟩ ∧
      (writeSource rA1.db keyA (srcV 2)).epoch = rA1.db.epoch + 1 ∧
      rA1.db.epoch + 1 ≠ 1) ∧
    d1id ∈ [d1id] ∧
    ((resolveNode fnsB 12 dbC2 d1id).out =
        some (srcV 2, if srcV 2 = srcV 1 then .NotRecalculated else .Recalculated) ∧
      (resolveNode fnsB 12 dbC2 d1id).ran = [] ++ [] ++ [d1id] ∧
      valueAt (resolveNode fnsB 12 dbC2 d1id).db d1id = some (srcV 2)) :=
  ⟨c1_change_propagation_amended.1 rA1.db keyA (srcV 2) 1 (by decide),
   c1_change_propagation_amended.2.1 fnsA 12 dbA2 (resolveNode fnsA 12 dbA2 d1id).db
     d1id ⟨1, 1, [⟨.Source keyA, 1⟩], cV⟩ keyA 1 ⟨2, srcV 2⟩ cV .NotRecalculated [d1id]
     (by decide) (by decide) (by decide) (by decide) (by decide) (by decide),
   c1_change_propagation_amended.2.2 fnsB 10 dbC2 dbC2 dbC2 d1id
     ⟨1, 1, [⟨.Source keyA, 1⟩], srcV 1⟩ (srcV 2) [⟨.Source keyA, 2⟩] [] []
     (by decide) (by decide) (by decide) (by decide) (by decide) (by decide)⟩

/-- C3: early cutoff.  First, on a node that already exists, a
(non-reentrant) `resolve` reports `Recalculated` only when the node's stored
value actually changed.  Second, concretely: after the source write advanced
the epoch past `d2id`'s last verification, dependency `d1id` recomputes to an
equal value, and `d2id` reports `NotRecalculated` without rerunning its own
function (`ran = [d1id]`). -/
theorem c3_early_cutoff :
    (∀ (fns : FnTable) (fuel : Nat) (db db1 : Database) (id : DerivedNodeId)
        (n : DerivedNode) (v : DynValue) (ran : List DerivedNodeId),
        assocFind id db.derived = some n →
        resolveNode fns fuel db id = ⟨db1, some (v, .Recalculated), ran⟩ →
        ran.count id ≤ 1 →
        v ≠ n.value) ∧
    ((assocFind d2id dbB2.derived).map DerivedNode.time_verified = some 1 ∧
      dbB2.epoch = 2 ∧
      (resolveNode fnsA 12 dbB2 d2id).out = some (cV, .NotRecalculated) ∧
      (resolveNode fnsA 12 dbB2 d2id).ran = [d1id]) := by
  constructor
  · intro fns fuel db db1 id n v ran hfind hres hcount
    cases fuel with
    | zero => simp [resolveNode] at hres
    | succ fuel =>
      simp only [resolveNode, hfind] at hres
      split at hres
      next htv =>
        injection hres with e1 e2 e3
        injection e2 with e4
        injection e4 with e5 e6
        cases e6
      next htv =>
        split at hres
        next db2 ranD heq =>
          injection hres with e1 e2 e3
          simp at e2
        next db2 ranD heq =>
          injection hres with e1 e2 e3
          injection e2 with e4
          injection e4 with e5 e6
          cases e6
        next db2 ranD heq =>
          split at hres
          next db3 ranE heq2 =>
            injection hres with e1 e2 e3
            simp at e2
          next db3 v2 deps ranE heq2 =>
            split at hres
            next hcur =>
              injection hres with e1 e2 e3
              subst e3
              simp only [List.count_append, List.count_singleton, beq_self_eq_true,
                if_true] at hcount
              have hD : id ∉ ranD := by
                rw [← List.count_eq_zero]
                omega
              have hE : id ∉ ranE := by
                rw [← List.count_eq_zero]
                omega
              have h1 := (valueAt_preserved fns fuel).2.1 db n.dependencies db2 _ ranD heq id hD
              have h2 := (valueAt_preserved fns fuel).2.2 db2 (fns id) db3 _ ranE heq2 id hE
              have hchain : valueAt db3 id = valueAt db id := h2.trans h1
              rw [valueAt, valueAt, hcur, hfind] at hchain
              simp at hchain
            next cur hcur =>
              injection hres with e1 e2 e3
              subst e3
              simp only [List.count_append, List.count_singleton, beq_self_eq_true,
                if_true] at hcount
              have hD : id ∉ ranD := by
                rw [← List.count_eq_zero]
                omega
              have hE : id ∉ ranE := by
                rw [← List.count_eq_zero]
                omega
              have h1 := (valueAt_preserved fns fuel).2.1 db n.dependencies db2 _ ranD heq id hD
              have h2 := (valueAt_preserved fns fuel).2.2 db2 (fns id) db3 _ ranE heq2 id hE
              have hchain : valueAt db3 id = valueAt db id := h2.trans h1
              rw [valueAt, valueAt, hcur, hfind] at hchain
              simp only [Option.map_some', Option.some.injEq] at hchain
              injection e2 with e4
              injection e4 with e5 e6
              have hr2 : (cur.update ⟨db3.epoch, db3.epoch, deps, v2⟩).2 = true := by
                cases hb : (cur.update ⟨db3.epoch, db3.epoch, deps, v2⟩).2 with
                | true => rfl
                | false =>
                  rw [hb] at e6
                  cases e6
              have hneq := (update_snd_true_iff cur ⟨db3.epoch, db3.epoch, deps, v2⟩).mp hr2
              have hv2 : (cur.update ⟨db3.epoch, db3.epoch, deps, v2⟩).1.value = v2 :=
                update_value_of_ne cur _ hneq
              rw [hv2] at e5
              rw [← e5, ← hchain]
              exact fun hx => hneq hx.symm
  · exact ⟨by decide, by decide, by decide, by decide⟩

/-- Witness for C3's general part: under `fnsB` the resolve after the source
write reports `Recalculated`, so the value must indeed have changed. -/
theorem c3_witness : srcV 2 ≠ srcV 1 :=
  c3_early_cutoff.1 fnsB 12 dbC2 (resolveNode fnsB 12 dbC2 d1id).db d1id
    ⟨1, 1, [⟨.Source keyA, 1⟩], srcV 1⟩ (srcV 2) [d1id]
    (by decide) (by decide) (by decide)
